import Mathlib

/-!
Shallow embedding of the constraint-satisfaction filtering engine of
`src/main.py` (SFU course-outline filter). Python strings are modelled as
`List Char`; Python exceptions as an `Except Err` result, with `Err`
recording the exception class raised; integers as `Int`/`Nat`. The I/O
plumbing (HTTP fetch, HTML scraping, pickle cache, argparse) is out of
scope; the pipeline takes the already-materialised list of outlines and the
already-built constraint list as arguments, exactly as the pure logic does.
-/

/-- Python exception classes that the modelled code can raise. -/
inductive Err
  | valueError
  | indexError
  | typeError
  | attributeError
  | assertionError
deriving DecidableEq, Repr

/-- The weekday enum `D` of main.py (class D(Enum)). -/
inductive D
  | M
  | W
  | F
  | TU
  | TH
deriving DecidableEq, Repr

/-- Method `D.s`: the enum member's two-letter value. -/
def D.s : D → List Char
  | .M => ("Mo").toList
  | .W => ("We").toList
  | .F => ("Fr").toList
  | .TU => ("Tu").toList
  | .TH => ("Th").toList

/-- Python `D(value)`: value lookup in the enum; raises ValueError when no
member has the given value. -/
def D.fromValue (v : List Char) : Except Err D :=
  if v = ("Mo").toList then .ok .M
  else if v = ("We").toList then .ok .W
  else if v = ("Fr").toList then .ok .F
  else if v = ("Tu").toList then .ok .TU
  else if v = ("Th").toList then .ok .TH
  else .error .valueError

/-- Helper for `pySplit`: returns (current first chunk, later chunks). -/
def pySplitAux (sep : Char) : List Char → List Char × List (List Char)
  | [] => ([], [])
  | c :: cs =>
    let r := pySplitAux sep cs
    if c = sep then ([], r.1 :: r.2) else (c :: r.1, r.2)

/-- Python `str.split(sep)` for a one-character separator: always returns at
least one chunk ("".split(sep) == ['']). -/
def pySplit (sep : Char) (s : List Char) : List (List Char) :=
  (pySplitAux sep s).1 :: (pySplitAux sep s).2

/-- Python `l[n]` for a non-negative index: IndexError when out of range. -/
def pyIndex {α : Type} (l : List α) (n : Nat) : Except Err α :=
  match l.get? n with
  | some a => .ok a
  | none => .error .indexError

/-- ASCII whitespace stripped by Python `int()` around the literal. -/
def isPySpace (c : Char) : Bool :=
  c == ' ' || c == '\t' || c == '\n' || c == '\r'

/-- Python `str.strip()` restricted to the ASCII whitespace above. -/
def pyStrip (s : List Char) : List Char :=
  ((s.dropWhile isPySpace).reverse.dropWhile isPySpace).reverse

/-- Accumulating decimal reader: `none` as soon as a non-digit appears. -/
def digitsToNatAux : List Char → Nat → Option Nat
  | [], acc => some acc
  | c :: cs, acc =>
    if c.isDigit then digitsToNatAux cs (10 * acc + (c.toNat - 48)) else none

/-- A non-empty run of ASCII decimal digits, read as a Nat. -/
def digitsToNat (cs : List Char) : Option Nat :=
  match cs with
  | [] => none
  | _ :: _ => digitsToNatAux cs 0

/-- Sign dispatch of `pyInt` on the stripped literal. -/
def pyIntCore : List Char → Option Int
  | [] => none
  | c :: rest =>
    if c = '-' then Option.map (fun n : Nat => -(n : Int)) (digitsToNat rest)
    else if c = '+' then Option.map (fun n : Nat => (n : Int)) (digitsToNat rest)
    else Option.map (fun n : Nat => (n : Int)) (digitsToNat (c :: rest))

/-- Model of Python `int(s)` on the decimal notation the program meets:
optional surrounding ASCII whitespace, an optional sign, then a non-empty
run of ASCII digits. `none` models the ValueError int() raises otherwise. -/
def pyInt (s : List Char) : Option Int :=
  pyIntCore (pyStrip s)

/-- Sequencing of the modelled statements: an exception propagates, a value
feeds the continuation (Python straight-line control flow). -/
def exbind {α β : Type} (x : Except Err α) (f : α → Except Err β) :
    Except Err β :=
  match x with
  | .error e => .error e
  | .ok a => f a

/-- Python `int(...)` applied to an expression: ValueError when the literal
does not parse. -/
def liftVE (o : Option Int) : Except Err Int :=
  match o with
  | none => .error .valueError
  | some n => .ok n

/-- `TimeConstraints.time_to_minutes` (main.py:244-247):
`s = time_str.split(":"); return 60 * int(s[0]) + int(s[1])`,
with Python's evaluation order (index 0, int, index 1, int). -/
def time_to_minutes (s : List Char) : Except Err Int :=
  exbind (pyIndex (pySplit ':' s) 0) (fun p0 =>
    exbind (liftVE (pyInt p0)) (fun h =>
      exbind (pyIndex (pySplit ':' s) 1) (fun p1 =>
        exbind (liftVE (pyInt p1)) (fun m =>
          .ok (60 * h + m)))))

/-- `TimeConstraints.Constraint` (main.py:237-242). The Python field `end`
is a Lean keyword and is rendered `end_`. -/
structure Constraint where
  pos : Bool
  day : D
  start : Int
  end_ : Int
deriving DecidableEq, Repr

/-- `TimeConstraints.constraint_from_str` (main.py:249-261):
`pos = s[0] == "+"; day = D(s[1:3]); times = s[3:].split("-");
start = time_to_minutes(times[0]); end = time_to_minutes(times[1])`.
Python slices clamp, so `s[1:3]` and `s[3:]` never raise. -/
def constraint_from_str (s : List Char) : Except Err Constraint :=
  exbind (pyIndex s 0) (fun c0 =>
    exbind (D.fromValue ((s.drop 1).take 2)) (fun day =>
      exbind (pyIndex (pySplit '-' (s.drop 3)) 0) (fun t0 =>
        exbind (time_to_minutes t0) (fun st =>
          exbind (pyIndex (pySplit '-' (s.drop 3)) 1) (fun t1 =>
            exbind (time_to_minutes t1) (fun en =>
              .ok ⟨c0 == '+', day, st, en⟩))))))

/-- Does the needle start the haystack (Python startswith, used by strIn). -/
def leadsWith : List Char → List Char → Bool
  | [], _ => true
  | _ :: _, [] => false
  | a :: as, b :: bs => if a = b then leadsWith as bs else false

/-- Python `needle in haystack` for strings: contiguous substring test. -/
def strIn (n : List Char) : List Char → Bool
  | [] => leadsWith n []
  | c :: rest => leadsWith n (c :: rest) || strIn n rest

/-- `TimeConstraints.is_not_constrained` (main.py:283-290). -/
def is_not_constrained (days : List Char) (start finish : Int)
    (c : Constraint) : Bool :=
  if strIn (D.s c.day) days then
    c.pos == (decide (start < c.end_) && decide (finish > c.start))
  else true

/-- `TimeConstraints.satisfies_constraints` (main.py:292-296); the object's
`self.constraints` list is the explicit first argument. -/
def satisfies_constraints (cs : List Constraint) (days : List Char)
    (start finish : Int) : Bool :=
  cs.all (fun c => is_not_constrained days start finish c)

/-- Class `Schedule` (main.py:102-113). `campus`, `sectionCode`, `startTime`
and `endTime` come from `dict.get(..., None)` and are optional; `days` is
the day-string the filtering engine reads (the fetch contract supplies it). -/
structure Schedule where
  campus : Option (List Char)
  days : List Char
  sectionCode : Option (List Char)
  startTime : Option (List Char)
  endTime : Option (List Char)
deriving DecidableEq, Repr

/-- Class `Outline` (main.py:116-137), restricted to the fields the filter
pipeline reads: the course number and the optional schedule list
(`self.schedule = None` when the fetched data has no courseSchedule). -/
structure Outline where
  name : List Char
  number : List Char
  schedule : Option (List Schedule)
deriving DecidableEq, Repr

/-- Python truthiness of `x.schedule`: a non-None, non-empty list. -/
def schedTruthy : Option (List Schedule) → Bool
  | some (_ :: _) => true
  | _ => false

/-- Stage `fu` (main.py:305-306): `[x for x in data if x.schedule]`. -/
def fu (data : List Outline) : List Outline :=
  data.filter (fun x => schedTruthy x.schedule)

/-- The campus test of `fc`: `== campus`, or membership in the two named
campuses when the requested campus is "any". -/
def campusKeep (campus : List Char) (c : Option (List Char)) : Bool :=
  if campus = ("any").toList then
    decide (c = some (("Burnaby").toList) ∨ c = some (("Surrey").toList))
  else decide (c = some campus)

/-- `x.schedule[0]`: TypeError on None (Python `None[0]`), IndexError on an
empty list. -/
def sched0 (x : Outline) : Except Err Schedule :=
  match x.schedule with
  | none => .error .typeError
  | some [] => .error .indexError
  | some (s :: _) => .ok s

/-- Stage `fc` (main.py:308-312): keeps x when `x.schedule[0].campus`
passes the campus test; the subscript is evaluated per element. -/
def fc (campus : List Char) : List Outline → Except Err (List Outline)
  | [] => .ok []
  | x :: xs =>
    exbind (sched0 x) (fun s0 =>
      exbind (fc campus xs) (fun rest =>
        .ok (if campusKeep campus s0.campus then x :: rest else rest)))

/-- The hardcoded cmpt taken-list of `ft` (main.py:315-329). -/
def cmptTaken : List (List Char) :=
  [("105W").toList, ("120").toList, ("125").toList, ("210").toList,
   ("225").toList, ("276").toList, ("307").toList, ("310").toList,
   ("354").toList, ("361").toList, ("383").toList, ("471").toList]

/-- The hardcoded psyc taken-list of `ft` (main.py:331-332). -/
def psycTaken : List (List Char) :=
  [("100").toList, ("102").toList]

/-- Stage `ft` (main.py:314-334): department-specific taken-list filter;
other departments pass through unfiltered. -/
def ft (data : List Outline) (dept : List Char) : List Outline :=
  if dept = ("cmpt").toList then
    data.filter (fun x => decide (x.number ∉ cmptTaken))
  else if dept = ("psyc").toList then
    data.filter (fun x => decide (x.number ∉ psycTaken))
  else data

/-- The per-element test of `fd`: `any([s for s in x.schedule if day in
s.days])`; iterating a None schedule raises TypeError. -/
def dayKeep (day : List Char) (x : Outline) : Except Err Bool :=
  match x.schedule with
  | none => .error .typeError
  | some l => .ok (l.any (fun s => strIn day s.days))

/-- The filtering loop of `fd` once a day filter is active. -/
def fdGo (day : List Char) : List Outline → Except Err (List Outline)
  | [] => .ok []
  | x :: xs =>
    exbind (dayKeep day x) (fun b =>
      exbind (fdGo day xs) (fun rest =>
        .ok (if b then x :: rest else rest)))

/-- Stage `fd` (main.py:336-340): `if not day: return data` (None and the
empty string are falsy), else filter by day membership. -/
def fd : Option (List Char) → List Outline → Except Err (List Outline)
  | none, data => .ok data
  | some [], data => .ok data
  | some (c :: cs), data => fdGo (c :: cs) data

/-- The local `t2m` of `ftime` (main.py:343-345); its body is literally the
body of `TimeConstraints.time_to_minutes`. -/
def t2m (s : List Char) : Except Err Int :=
  time_to_minutes s

/-- Python `s.endTime.split(...)` reached through `t2m(s.endTime)`: a None
endTime raises AttributeError (`None.split`). -/
def liftAE (o : Option (List Char)) : Except Err (List Char) :=
  match o with
  | none => .error .attributeError
  | some b => .ok b

/-- The loop of `possible` (main.py:349-356): patterns whose `startTime` is
falsy (None or empty) are skipped; a timed pattern parses both times
(`t2m(s.endTime)` on a None endTime is `None.split`, an AttributeError) and
returns False as soon as one timed pattern violates the constraints. -/
def possibleGo (cs : List Constraint) : List Schedule → Except Err Bool
  | [] => .ok true
  | s :: rest =>
    match s.startTime with
    | none => possibleGo cs rest
    | some [] => possibleGo cs rest
    | some (a :: as) =>
      exbind (t2m (a :: as)) (fun st =>
        exbind (liftAE s.endTime) (fun b =>
          exbind (t2m b) (fun en =>
            if satisfies_constraints cs s.days st en then possibleGo cs rest
            else .ok false)))

/-- `possible` (main.py:347-356): `assert course.schedule` (AssertionError
on a falsy schedule), then the loop over the meeting patterns. -/
def possible (course : Outline) (cs : List Constraint) : Except Err Bool :=
  match course.schedule with
  | none => .error .assertionError
  | some [] => .error .assertionError
  | some (s :: rest) => possibleGo cs (s :: rest)

/-- Stage `ftime` (main.py:342-360): `[x for x in data if possible(x,
constraints)]` with the constraint list passed in explicitly. -/
def ftime (cs : List Constraint) : List Outline → Except Err (List Outline)
  | [] => .ok []
  | x :: xs =>
    exbind (possible x cs) (fun b =>
      exbind (ftime cs xs) (fun rest =>
        .ok (if b then x :: rest else rest)))

/-- The composite the program computes (main.py:364):
`ftime(ft(fd(fc(fu(data))), dept))`. -/
def pipeline (campus : List Char) (day : Option (List Char))
    (dept : List Char) (cs : List Constraint) (data : List Outline) :
    Except Err (List Outline) :=
  exbind (fc campus (fu data)) (fun l2 =>
    exbind (fd day l2) (fun l3 =>
      ftime cs (ft l3 dept)))

/-- Modelled from the spec: the composition of the five stages in the
order the spec gives them (HasSchedule, CampusMatch, AlreadyTaken,
WeekdayMatch, ConstraintSatisfaction); the refinement target C4 compares
the program's composite against. -/
def specPipeline (campus : List Char) (day : Option (List Char))
    (dept : List Char) (cs : List Constraint) (data : List Outline) :
    Except Err (List Outline) :=
  exbind (fc campus (fu data)) (fun l2 =>
    exbind (fd day (ft l2 dept)) (fun l4 =>
      ftime cs l4))

/-- The three seat tiers the spec reads off the output colors. -/
inductive SeatStatus
  | comfortable
  | tight
  | crowded
deriving DecidableEq, Repr

/-- Decimal rendering of a Nat, as Python str(n) inside the f-string. -/
def natStr (n : Nat) : List Char :=
  Nat.toDigits 10 n

/-- An ANSI-colored span: ESC [ code m body ESC [ 0 m. -/
def ansi (code body : List Char) : List Char :=
  ("\x1b[").toList ++ code ++ ('m' :: body) ++ ("\x1b[0m").toList

/-- The `i(+w)/m` body of the waitlisted branches of seating_to_str. -/
def seatBodyWait (i m w : Nat) : List Char :=
  natStr i ++ ("(+").toList ++ natStr w ++ (")/").toList ++ natStr m

/-- The `i/m` body of the waitlist-free branch of seating_to_str. -/
def seatBodyNoWait (i m : Nat) : List Char :=
  natStr i ++ ('/' :: natStr m)

/-- `seating_to_str` (main.py:60-70). Python compares `i < 0.9 * m` in
binary64; for every m below 2^49 the rounded product fl(0.9 * m) is the
double nearest 9*m/10, so the float comparison agrees with the exact
rational test `10 * i < 9 * m` used here. -/
def seating_to_str (i m w : Nat) : List Char :=
  if w ≠ 0 then
    if 10 * i < 9 * m then ansi (("32").toList) (seatBodyWait i m w)
    else if w < 20 then ansi (("33").toList) (seatBodyWait i m w)
    else ansi (("31").toList) (seatBodyWait i m w)
  else ansi (("32").toList) (seatBodyNoWait i m)

/-- Modelled from the spec: the classifier cascade of section 4.5, the
refinement target C5 compares seating_to_str against. -/
def claimClassify (i m w : Nat) : SeatStatus :=
  if w = 0 then .comfortable
  else if 10 * i < 9 * m then .comfortable
  else if w < 20 then .tight
  else .crowded

/-- The ANSI color code each tier is printed with. -/
def colorOf : SeatStatus → List Char
  | .comfortable => ("32").toList
  | .tight => ("33").toList
  | .crowded => ("31").toList

/-- Did the modelled Python expression finish without an exception. -/
def exceptOk {α : Type} : Except Err α → Bool
  | .ok _ => true
  | .error _ => false

/-- A Tuesday Burnaby meeting pattern with no recorded times. -/
def tuBurnaby : Schedule :=
  ⟨some (("Burnaby").toList), ("Tu").toList, none, none, none⟩

/-- A cmpt offering whose number sits in the taken-list and whose only
meeting pattern is on Tuesday (used to separate the pipeline stages). -/
def o120 : Outline :=
  ⟨("CMPT 120").toList, ("120").toList, some [tuBurnaby]⟩

/-- Well-scheduled lists: every element has a non-None, non-empty meeting
pattern list (what HasSchedule establishes). -/
def WS (l : List Outline) : Prop :=
  ∀ x ∈ l, ∃ s t, x.schedule = some (s :: t)

/-- The pure predicate `fc` computes on a well-scheduled element. -/
def campusPred (campus : List Char) (x : Outline) : Bool :=
  match x.schedule with
  | some (s :: _) => campusKeep campus s.campus
  | _ => false

/-- The pure predicate `fd` computes on a well-scheduled element. -/
def dayPred (day : List Char) (x : Outline) : Bool :=
  match x.schedule with
  | some l => l.any (fun s => strIn day s.days)
  | none => false

/-- The pure predicate `ft` filters by. -/
def takenPred (dept : List Char) (x : Outline) : Bool :=
  if dept = ("cmpt").toList then decide (x.number ∉ cmptTaken)
  else if dept = ("psyc").toList then decide (x.number ∉ psycTaken)
  else true

/-- The pure list transformation `fd` performs on well-scheduled input. -/
def dayFilter : Option (List Char) → List Outline → List Outline
  | none, l => l
  | some [], l => l
  | some (c :: cs), l => l.filter (dayPred (c :: cs))

/-! ## Inversion and membership lemmas -/

theorem exbind_eq_ok {α β : Type} (x : Except Err α) (f : α → Except Err β)
    (b : β) : exbind x f = .ok b ↔ ∃ a, x = .ok a ∧ f a = .ok b := by
  cases x <;> simp [exbind]

theorem liftVE_eq_ok (o : Option Int) (n : Int) :
    liftVE o = .ok n ↔ o = some n := by
  cases o <;> simp [liftVE]

theorem liftAE_eq_ok (o : Option (List Char)) (b : List Char) :
    liftAE o = .ok b ↔ o = some b := by
  cases o <;> simp [liftAE]

theorem pyIndex_eq_ok {α : Type} (l : List α) (n : Nat) (a : α) :
    pyIndex l n = .ok a ↔ l.get? n = some a := by
  unfold pyIndex
  cases l.get? n <;> simp

theorem pySplitAux_chars (sep : Char) :
    ∀ (s : List Char) (p : List Char),
      (p = (pySplitAux sep s).1 ∨ p ∈ (pySplitAux sep s).2) →
      ∀ c ∈ p, c ∈ s ∧ c ≠ sep := by
  intro s
  induction s with
  | nil =>
    intro p hp c hc
    simp [pySplitAux] at hp
    subst hp; simp at hc
  | cons a as ih =>
    intro p hp c hc
    by_cases ha : a = sep
    · simp only [pySplitAux, if_pos ha] at hp
      rcases hp with h | h
      · subst h; simp at hc
      · rcases List.mem_cons.mp h with h1 | h1
        · have := ih p (Or.inl h1) c hc
          exact ⟨List.mem_cons_of_mem _ this.1, this.2⟩
        · have := ih p (Or.inr h1) c hc
          exact ⟨List.mem_cons_of_mem _ this.1, this.2⟩
    · simp only [pySplitAux, if_neg ha] at hp
      rcases hp with h | h
      · subst h
        rcases List.mem_cons.mp hc with h1 | h1
        · subst h1; exact ⟨List.mem_cons_self _ _, ha⟩
        · have := ih _ (Or.inl rfl) c h1
          exact ⟨List.mem_cons_of_mem _ this.1, this.2⟩
      · have := ih p (Or.inr h) c hc
        exact ⟨List.mem_cons_of_mem _ this.1, this.2⟩

theorem pySplit_chars (sep : Char) (s p : List Char) (hp : p ∈ pySplit sep s) :
    ∀ c ∈ p, c ∈ s ∧ c ≠ sep := by
  intro c hc
  unfold pySplit at hp
  rcases List.mem_cons.mp hp with h | h
  · exact pySplitAux_chars sep s p (Or.inl h) c hc
  · exact pySplitAux_chars sep s p (Or.inr h) c hc

theorem mem_of_mem_dropWhile (p : Char → Bool) :
    ∀ (l : List Char) (c : Char), c ∈ l.dropWhile p → c ∈ l := by
  intro l
  induction l with
  | nil => intro c hc; simp [List.dropWhile] at hc
  | cons a as ih =>
    intro c hc
    by_cases hp : p a = true
    · simp only [List.dropWhile, hp] at hc
      exact List.mem_cons_of_mem _ (ih c hc)
    · rw [Bool.not_eq_true] at hp
      simp only [List.dropWhile, hp] at hc
      exact hc

theorem mem_pyStrip (s : List Char) (c : Char) (hc : c ∈ pyStrip s) :
    c ∈ s := by
  unfold pyStrip at hc
  rw [List.mem_reverse] at hc
  have h1 := mem_of_mem_dropWhile _ _ _ hc
  rw [List.mem_reverse] at h1
  exact mem_of_mem_dropWhile _ _ _ h1

theorem pyInt_nonneg (s : List Char) (hm : ('-') ∉ s) (n : Int)
    (h : pyInt s = some n) : 0 ≤ n := by
  unfold pyInt at h
  cases hst : pyStrip s with
  | nil => rw [hst] at h; simp [pyIntCore] at h
  | cons c rest =>
    rw [hst] at h
    simp only [pyIntCore] at h
    by_cases hc : c = '-'
    · subst hc
      exact absurd (mem_pyStrip s '-' (hst ▸ List.mem_cons_self _ _)) hm
    · rw [if_neg hc] at h
      by_cases hp : c = '+'
      · rw [if_pos hp] at h
        rcases Option.map_eq_some'.mp h with ⟨k, _, hk⟩
        rw [← hk]
        exact Int.natCast_nonneg k
      · rw [if_neg hp] at h
        rcases Option.map_eq_some'.mp h with ⟨k, _, hk⟩
        rw [← hk]
        exact Int.natCast_nonneg k

theorem time_to_minutes_eq_ok (s : List Char) (v : Int) :
    time_to_minutes s = .ok v ↔
      ∃ p0 h p1 m, (pySplit ':' s).get? 0 = some p0 ∧ pyInt p0 = some h ∧
        (pySplit ':' s).get? 1 = some p1 ∧ pyInt p1 = some m ∧
        v = 60 * h + m := by
  unfold time_to_minutes
  simp only [exbind_eq_ok, liftVE_eq_ok, pyIndex_eq_ok, Except.ok.injEq]
  constructor
  · rintro ⟨p0, h0, hq, hh, p1, h1, m, hm, hv⟩
    exact ⟨p0, hq, p1, m, h0, hh, h1, hm, hv.symm⟩
  · rintro ⟨p0, hq, p1, m, h0, hh, h1, hm, hv⟩
    exact ⟨p0, h0, hq, hh, p1, h1, m, hm, hv.symm⟩

theorem time_to_minutes_nonneg (s : List Char) (hm : ('-') ∉ s) (v : Int)
    (h : time_to_minutes s = .ok v) : 0 ≤ v := by
  rcases (time_to_minutes_eq_ok s v).mp h with
    ⟨p0, hv0, p1, m0, hg0, hi0, hg1, hi1, hv⟩
  have hp0 : p0 ∈ pySplit ':' s := List.get?_mem hg0
  have hp1 : p1 ∈ pySplit ':' s := List.get?_mem hg1
  have hm0 : ('-') ∉ p0 := fun hx => hm (pySplit_chars ':' s p0 hp0 '-' hx).1
  have hm1 : ('-') ∉ p1 := fun hx => hm (pySplit_chars ':' s p1 hp1 '-' hx).1
  have n0 := pyInt_nonneg p0 hm0 hv0 hi0
  have n1 := pyInt_nonneg p1 hm1 m0 hi1
  omega

/-! ## Claim theorems -/

/-- C1: `is_not_constrained` returns true regardless of the times when the
constraint's weekday code is not a substring of the day-string; otherwise it
returns true exactly when the constraint's polarity (pos = Required-Busy)
equals the half-open overlap test `start < c.end AND end > c.start`; in
particular windows that merely touch at an endpoint never count as
overlapping, for either polarity. -/
theorem c1_is_not_constrained_spec (c : Constraint) (ds : List Char)
    (s e : Int) :
    (is_not_constrained ds s e c = true ↔
      (strIn (D.s c.day) ds = false ∨
        (c.pos = true ↔ (s < c.end_ ∧ e > c.start))))
    ∧ ((strIn (D.s c.day) ds = true ∧ (e = c.start ∨ s = c.end_)) →
        is_not_constrained ds s e c = !c.pos) := by
  constructor
  · by_cases hd : strIn (D.s c.day) ds <;>
      cases hp : c.pos <;>
      by_cases h1 : s < c.end_ <;>
      by_cases h2 : e > c.start <;>
      simp [is_not_constrained, hd, hp, h1, h2]
  · rintro ⟨hd, he | he⟩ <;>
      cases hp : c.pos <;>
      simp [is_not_constrained, hd, hp, he, lt_irrefl]

/-- C2: `satisfies_constraints` is the universal quantification of
`is_not_constrained` over the constraint list: true iff every constraint is
not violated (so one violated constraint rejects), and vacuously true for
the empty constraint list. -/
theorem c2_satisfies_constraints_forall (cs : List Constraint)
    (ds : List Char) (s e : Int) :
    (satisfies_constraints cs ds s e = true ↔
      ∀ c ∈ cs, is_not_constrained ds s e c = true)
    ∧ satisfies_constraints [] ds s e = true := by
  refine ⟨?_, rfl⟩
  simp [satisfies_constraints, List.all_eq_true]

/-- C5: `seating_to_str` on non-negative integers with capacity at least
enrolled is total and colors its output green (Comfortable) when w = 0, else
green when enrolled is below nine tenths of capacity, else yellow (Tight)
when w < 20, else red (Crowded) — the spec's classifier cascade. -/
theorem c5_seating_to_str_tiers (i m w : Nat) (_h : i ≤ m) :
    seating_to_str i m w =
      ansi (colorOf (claimClassify i m w))
        (if w ≠ 0 then seatBodyWait i m w else seatBodyNoWait i m) := by
  by_cases hw : w = 0 <;> by_cases h9 : 10 * i < 9 * m <;>
    by_cases h20 : w < 20 <;>
    simp [seating_to_str, claimClassify, colorOf, hw, h9, h20]

/-- C5 witness: the theorem applied at (25, 30, 5), the spec's own test
vector (25 < 0.9 * 30, so Comfortable despite the waitlist). -/
theorem c5_seating_witness :
    seating_to_str 25 30 5 =
      ansi (colorOf (claimClassify 25 30 5))
        (if 5 ≠ 0 then seatBodyWait 25 30 5 else seatBodyNoWait 25 30) :=
  c5_seating_to_str_tiers 25 30 5 (by decide)

/-- C3 counterexample: a leading character that is neither '+' nor '-' does
not fail at all — `"*Mo10:30-13:30"` parses successfully (as a
Required-Free constraint), refuting "fails with InvalidPolarity for any
other leading character". -/
theorem c3_cex_star_leading_char :
    constraint_from_str (("*Mo10:30-13:30").toList) =
      .ok ⟨false, D.M, 630, 810⟩ := rfl

/-- C4 counterexample: after HasSchedule and CampusMatch, the stage the
program applies next is the weekday filter, not the taken-list filter: on
a taken cmpt course meeting on Tuesday the third applied stage keeps the
offering while AlreadyTaken would drop it. -/
theorem c4_cex_stage_order :
    fc (("Burnaby").toList) (fu [o120]) = .ok [o120]
    ∧ fd (some (("Tu").toList)) [o120] = .ok [o120]
    ∧ ft [o120] (("cmpt").toList) = []
    ∧ [o120] ≠ ([] : List Outline) :=
  ⟨rfl, rfl, rfl, by decide⟩

/-- C7 counterexample: `"1:2:x"` contains the non-numeric part "x", yet
`time_to_minutes` succeeds (returning 62), refuting "fails ... exactly when
the string has no ':' or contains non-numeric parts". -/
theorem c7_cex_extra_part :
    time_to_minutes (("1:2:x").toList) = .ok 62
    ∧ ¬ (∀ p ∈ pySplit ':' (("1:2:x").toList), ∀ c ∈ p, c.isDigit = true) :=
  ⟨rfl, by decide⟩

/-- C8 counterexample: a time-range portion that splits into three parts is
not rejected — `"+Mo1:00-2:00-3:00"` parses successfully, the third part
silently ignored. -/
theorem c8_cex_three_parts :
    constraint_from_str (("+Mo1:00-2:00-3:00").toList) =
      .ok ⟨true, D.M, 60, 120⟩
    ∧ (pySplit '-' ((("+Mo1:00-2:00-3:00").toList).drop 3)).length ≠ 2 :=
  ⟨rfl, by decide⟩

/-- C9 counterexample: parsing enforces no window invariant —
`"+Mo13:30-10:30"` yields start = 810 and end = 630, violating
start < end. -/
theorem c9_cex_reversed_window :
    constraint_from_str (("+Mo13:30-10:30").toList) =
      .ok ⟨true, D.M, 810, 630⟩
    ∧ ¬ ((810 : Int) < 630) :=
  ⟨rfl, by decide⟩

theorem exceptOk_eq_false_iff {α : Type} (x : Except Err α) :
    exceptOk x = false ↔ ∀ b, x ≠ .ok b := by
  cases x <;> simp [exceptOk]

theorem constraint_from_str_eq_ok (s : List Char) (c : Constraint) :
    constraint_from_str s = .ok c ↔
      ∃ c0 t0 t1, s.get? 0 = some c0 ∧
        D.fromValue ((s.drop 1).take 2) = .ok c.day ∧
        (pySplit '-' (s.drop 3)).get? 0 = some t0 ∧
        time_to_minutes t0 = .ok c.start ∧
        (pySplit '-' (s.drop 3)).get? 1 = some t1 ∧
        time_to_minutes t1 = .ok c.end_ ∧
        c.pos = (c0 == '+') := by
  obtain ⟨pos, dy, stc, enc⟩ := c
  unfold constraint_from_str
  simp only [exbind_eq_ok, pyIndex_eq_ok, Except.ok.injEq, Constraint.mk.injEq]
  constructor
  · rintro ⟨c0, h0, day, hd, t0, g0, st, hst, t1, g1, en, hen,
      hpos, hday, hst2, hen2⟩
    subst hday; subst hst2; subst hen2
    exact ⟨c0, t0, t1, h0, hd, g0, hst, g1, hen, hpos.symm⟩
  · rintro ⟨c0, t0, t1, h0, hd, g0, hst, g1, hen, hpos⟩
    exact ⟨c0, h0, dy, hd, t0, g0, stc, hst, t1, g1, enc, hen,
      hpos.symm, rfl, rfl, rfl⟩

/-- C3 (amended): a leading '+' yields a Required-Busy constraint and EVERY
other leading character (including '-') yields a Required-Free constraint —
there is no polarity validation; the malformed input "Mo10:30-13:30" does
fail, but with the day-code lookup's ValueError (D("o1")), not an
invalid-polarity error. -/
theorem c3_amended_polarity :
    (∀ (s : List Char) (c : Constraint), constraint_from_str s = .ok c →
      (c.pos = true ↔ s.get? 0 = some '+'))
    ∧ constraint_from_str (("Mo10:30-13:30").toList) =
      .error .valueError := by
  constructor
  · intro s c h
    rcases (constraint_from_str_eq_ok s c).mp h with
      ⟨c0, t0, t1, h0, _, _, _, _, _, hpos⟩
    rw [hpos, h0]
    simp [beq_iff_eq]
  · rfl

/-- C9 (amended): successfully parsed constraints always have non-negative
start and end (the time components cannot contain a minus sign once the
range is split on '-'), but neither start < end nor end ≤ 1439 is enforced
by parsing. -/
theorem c9_amended_window_nonneg (s : List Char) (c : Constraint)
    (h : constraint_from_str s = .ok c) : 0 ≤ c.start ∧ 0 ≤ c.end_ := by
  rcases (constraint_from_str_eq_ok s c).mp h with
    ⟨c0, t0, t1, h0, hd, g0, hst, g1, hen, hpos⟩
  have ht0 : t0 ∈ pySplit '-' (s.drop 3) := List.get?_mem g0
  have ht1 : t1 ∈ pySplit '-' (s.drop 3) := List.get?_mem g1
  have hm0 : ('-') ∉ t0 := fun hx => (pySplit_chars '-' _ t0 ht0 '-' hx).2 rfl
  have hm1 : ('-') ∉ t1 := fun hx => (pySplit_chars '-' _ t1 ht1 '-' hx).2 rfl
  exact ⟨time_to_minutes_nonneg t0 hm0 c.start hst,
    time_to_minutes_nonneg t1 hm1 c.end_ hen⟩

/-- C9 witness: the amended theorem applied to "+Tu9:00-10:00". -/
theorem c9_amended_window_nonneg_witness :
    0 ≤ (⟨true, D.TU, 540, 600⟩ : Constraint).start
    ∧ 0 ≤ (⟨true, D.TU, 540, 600⟩ : Constraint).end_ :=
  c9_amended_window_nonneg (("+Tu9:00-10:00").toList)
    ⟨true, D.TU, 540, 600⟩ rfl

theorem pySplitAux_nosep (sep : Char) :
    ∀ s : List Char, sep ∉ s → pySplitAux sep s = (s, []) := by
  intro s
  induction s with
  | nil => intro _; rfl
  | cons a as ih =>
    intro h
    have ha : ¬a = sep := fun he => h (he ▸ List.mem_cons_self _ _)
    have has : sep ∉ as := fun hx => h (List.mem_cons_of_mem _ hx)
    simp [pySplitAux, ih has, ha]

theorem pySplit_nosep (sep : Char) (s : List Char) (h : sep ∉ s) :
    pySplit sep s = [s] := by
  unfold pySplit
  rw [pySplitAux_nosep sep s h]

theorem dropWhile_cons_of_neg (p : Char → Bool) (a : Char) (l : List Char)
    (h : p a = false) : (a :: l).dropWhile p = a :: l := by
  simp [List.dropWhile, h]

theorem isPySpace_eq_false_of_isDigit (c : Char) (h : c.isDigit = true) :
    isPySpace c = false := by
  by_cases h1 : c = ' '
  · subst h1; exact absurd h (by decide)
  by_cases h2 : c = '\t'
  · subst h2; exact absurd h (by decide)
  by_cases h3 : c = '\n'
  · subst h3; exact absurd h (by decide)
  by_cases h4 : c = '\r'
  · subst h4; exact absurd h (by decide)
  simp [isPySpace, h1, h2, h3, h4]

theorem pyStrip_eq_self_of_digits (l : List Char)
    (h : ∀ c ∈ l, c.isDigit = true) : pyStrip l = l := by
  unfold pyStrip
  cases l with
  | nil => rfl
  | cons a as =>
    have h1 : isPySpace a = false :=
      isPySpace_eq_false_of_isDigit a (h a (List.mem_cons_self _ _))
    rw [dropWhile_cons_of_neg _ _ _ h1]
    cases hr : (a :: as).reverse with
    | nil => exact absurd hr (by simp)
    | cons b bs =>
      have hb : b ∈ a :: as := by
        rw [← List.mem_reverse, hr]; exact List.mem_cons_self _ _
      have h2 : isPySpace b = false := isPySpace_eq_false_of_isDigit b (h b hb)
      rw [dropWhile_cons_of_neg _ _ _ h2, ← hr, List.reverse_reverse]

theorem digitsToNatAux_some :
    ∀ (cs : List Char) (acc : Nat), (∀ c ∈ cs, c.isDigit = true) →
      ∃ k, digitsToNatAux cs acc = some k := by
  intro cs
  induction cs with
  | nil => intro acc _; exact ⟨acc, rfl⟩
  | cons a as ih =>
    intro acc h
    have ha : a.isDigit = true := h a (List.mem_cons_self _ _)
    have has : ∀ c ∈ as, c.isDigit = true :=
      fun c hc => h c (List.mem_cons_of_mem _ hc)
    rcases ih (10 * acc + (a.toNat - 48)) has with ⟨k, hk⟩
    exact ⟨k, by simp [digitsToNatAux, ha, hk]⟩

theorem pyInt_digits (l : List Char) (hne : l ≠ [])
    (h : ∀ c ∈ l, c.isDigit = true) :
    ∃ k : Nat, pyInt l = some (k : Int) := by
  unfold pyInt
  rw [pyStrip_eq_self_of_digits l h]
  cases l with
  | nil => exact absurd rfl hne
  | cons c rest =>
    have hc : c.isDigit = true := h c (List.mem_cons_self _ _)
    have hm : ¬c = '-' := fun he => by subst he; exact absurd hc (by decide)
    have hp : ¬c = '+' := fun he => by subst he; exact absurd hc (by decide)
    rcases digitsToNatAux_some (c :: rest) 0 h with ⟨k, hk⟩
    refine ⟨k, ?_⟩
    simp only [pyIntCore, if_neg hm, if_neg hp]
    rw [show digitsToNat (c :: rest) = digitsToNatAux (c :: rest) 0 from rfl, hk]
    rfl

/-- C7 (amended): `time_to_minutes` uses only the first two ':'-separated
parts. It fails on every string without ':'; it succeeds (with
60 * hour + minute) whenever the first two parts are non-empty digit runs,
regardless of any later parts; and signed parts are also accepted, e.g.
"-1:30" parses to -30 — so failure is NOT exactly "no ':' or some
non-numeric part". -/
theorem c7_amended_time_to_minutes :
    (∀ s : List Char, (':') ∉ s → exceptOk (time_to_minutes s) = false)
    ∧ (∀ (s p0 p1 : List Char) (rest : List (List Char)),
        pySplit ':' s = p0 :: p1 :: rest →
        p0 ≠ [] → (∀ c ∈ p0, c.isDigit = true) →
        p1 ≠ [] → (∀ c ∈ p1, c.isDigit = true) →
        ∃ h m : Nat, pyInt p0 = some (h : Int) ∧ pyInt p1 = some (m : Int) ∧
          time_to_minutes s = .ok (60 * h + m))
    ∧ time_to_minutes (("-1:30").toList) = .ok (-30) := by
  refine ⟨?_, ?_, rfl⟩
  · intro s h
    unfold time_to_minutes
    rw [pySplit_nosep ':' s h]
    cases hp : pyInt s <;>
      simp [pyIndex, exbind, liftVE, exceptOk, hp, List.get?]
  · intro s p0 p1 rest hsplit h0ne h0d h1ne h1d
    obtain ⟨h, hh⟩ := pyInt_digits p0 h0ne h0d
    obtain ⟨m, hm⟩ := pyInt_digits p1 h1ne h1d
    refine ⟨h, m, hh, hm, ?_⟩
    apply (time_to_minutes_eq_ok s _).mpr
    exact ⟨p0, (h : Int), p1, (m : Int),
      by rw [hsplit]; rfl, hh, by rw [hsplit]; rfl, hm, rfl⟩

/-- C8 (amended): constraint parsing fails when the '-'-split of the
time-range portion yields fewer than two parts, and when either of the
first two parts is empty (the empty string is not a valid time); but parts
beyond the second are silently ignored rather than rejected, e.g.
"+Mo1:00-2:00-3:00" parses to the window (60, 120). -/
theorem c8_amended_time_range :
    (∀ s : List Char, (pySplit '-' (s.drop 3)).length < 2 →
      exceptOk (constraint_from_str s) = false)
    ∧ (∀ s : List Char, (pySplit '-' (s.drop 3)).get? 0 = some [] →
      exceptOk (constraint_from_str s) = false)
    ∧ (∀ s : List Char, (pySplit '-' (s.drop 3)).get? 1 = some [] →
      exceptOk (constraint_from_str s) = false)
    ∧ constraint_from_str (("+Mo1:00-2:00-3:00").toList) =
      .ok ⟨true, D.M, 60, 120⟩ := by
  refine ⟨?_, ?_, ?_, rfl⟩
  · intro s hlen
    rw [exceptOk_eq_false_iff]
    intro c hc
    rcases (constraint_from_str_eq_ok s c).mp hc with
      ⟨c0, t0, t1, _, _, _, _, g1, _, _⟩
    have hn : (pySplit '-' (s.drop 3)).get? 1 = none :=
      List.get?_eq_none.mpr (by omega)
    rw [hn] at g1
    exact Option.noConfusion g1
  · intro s h0
    rw [exceptOk_eq_false_iff]
    intro c hc
    rcases (constraint_from_str_eq_ok s c).mp hc with
      ⟨c0, t0, t1, _, _, g0, hst, _, _, _⟩
    rw [h0] at g0
    injection g0 with g0'
    rw [← g0'] at hst
    rw [show time_to_minutes ([] : List Char) = Except.error Err.valueError
      from rfl] at hst
    exact Except.noConfusion hst
  · intro s h1
    rw [exceptOk_eq_false_iff]
    intro c hc
    rcases (constraint_from_str_eq_ok s c).mp hc with
      ⟨c0, t0, t1, _, _, _, _, g1, hen, _⟩
    rw [h1] at g1
    injection g1 with g1'
    rw [← g1'] at hen
    rw [show time_to_minutes ([] : List Char) = Except.error Err.valueError
      from rfl] at hen
    exact Except.noConfusion hen

theorem fu_WS (data : List Outline) : WS (fu data) := by
  intro x hx
  rw [fu, List.mem_filter] at hx
  rcases hx with ⟨_, h⟩
  cases hs : x.schedule with
  | none => rw [hs] at h; simp [schedTruthy] at h
  | some l =>
    cases l with
    | nil => rw [hs] at h; simp [schedTruthy] at h
    | cons s t => exact ⟨s, t, rfl⟩

theorem WS_filter (l : List Outline) (p : Outline → Bool) (h : WS l) :
    WS (l.filter p) :=
  fun x hx => h x (List.mem_filter.mp hx).1

theorem fc_eq_filter (campus : List Char) :
    ∀ l : List Outline, WS l →
      fc campus l = .ok (l.filter (campusPred campus)) := by
  intro l
  induction l with
  | nil => intro _; rfl
  | cons x xs ih =>
    intro h
    rcases h x (List.mem_cons_self _ _) with ⟨s, t, hs⟩
    have hxs : WS xs := fun y hy => h y (List.mem_cons_of_mem _ hy)
    have h0 : sched0 x = .ok s := by unfold sched0; rw [hs]
    have hcp : campusPred campus x = campusKeep campus s.campus := by
      unfold campusPred; rw [hs]
    rw [show fc campus (x :: xs) = exbind (sched0 x) (fun s0 =>
      exbind (fc campus xs) (fun rest =>
        .ok (if campusKeep campus s0.campus then x :: rest else rest)))
      from rfl, h0, ih hxs]
    cases hb : campusKeep campus s.campus <;>
      simp [exbind, List.filter_cons, hcp, hb]

theorem fdGo_eq_filter (day : List Char) :
    ∀ l : List Outline, WS l →
      fdGo day l = .ok (l.filter (dayPred day)) := by
  intro l
  induction l with
  | nil => intro _; rfl
  | cons x xs ih =>
    intro h
    rcases h x (List.mem_cons_self _ _) with ⟨s, t, hs⟩
    have hxs : WS xs := fun y hy => h y (List.mem_cons_of_mem _ hy)
    have h0 : dayKeep day x = .ok ((s :: t).any (fun sc => strIn day sc.days)) := by
      unfold dayKeep; rw [hs]
    have hdp : dayPred day x = (s :: t).any (fun sc => strIn day sc.days) := by
      unfold dayPred; rw [hs]
    rw [show fdGo day (x :: xs) = exbind (dayKeep day x) (fun b =>
      exbind (fdGo day xs) (fun rest =>
        .ok (if b then x :: rest else rest)))
      from rfl, h0, ih hxs]
    cases hb : (s :: t).any (fun sc => strIn day sc.days) <;>
      simp [exbind, List.filter_cons, hdp, hb]

theorem fd_eq_dayFilter (day : Option (List Char)) (l : List Outline)
    (h : WS l) : fd day l = .ok (dayFilter day l) := by
  cases day with
  | none => rfl
  | some d =>
    cases d with
    | nil => rfl
    | cons c cs => exact fdGo_eq_filter (c :: cs) l h

theorem filter_true_eq (l : List Outline) : l.filter (fun _ => true) = l := by
  induction l with
  | nil => rfl
  | cons x xs ih => simp [List.filter_cons, ih]

theorem ft_eq_filter (l : List Outline) (dept : List Char) :
    ft l dept = l.filter (takenPred dept) := by
  by_cases h1 : dept = ("cmpt").toList
  · have hto : takenPred dept = fun x => decide (x.number ∉ cmptTaken) := by
      funext x; simp only [takenPred, if_pos h1]
    simp only [ft, if_pos h1, hto]
  · by_cases h2 : dept = ("psyc").toList
    · have hto : takenPred dept = fun x => decide (x.number ∉ psycTaken) := by
        funext x; simp only [takenPred, if_neg h1, if_pos h2]
      simp only [ft, if_neg h1, if_pos h2, hto]
    · have hto : takenPred dept = fun _ => true := by
        funext x; simp only [takenPred, if_neg h1, if_neg h2]
      simp only [ft, if_neg h1, if_neg h2, hto]
      exact (filter_true_eq l).symm

theorem filter_swap (p q : Outline → Bool) :
    ∀ l : List Outline, (l.filter p).filter q = (l.filter q).filter p := by
  intro l
  induction l with
  | nil => rfl
  | cons x xs ih =>
    cases hp : p x <;> cases hq : q x <;>
      simp [List.filter_cons, hp, hq, ih]

/-- C4 (amended): the program composes the stages in the order HasSchedule,
CampusMatch, WeekdayMatch, AlreadyTaken, ConstraintSatisfaction — with
WeekdayMatch and AlreadyTaken swapped relative to the claimed order — but
because those two stages are pure filters on independent predicates, the
composite the program computes equals the composition in the spec-given
order on every input. -/
theorem c4_amended_pipeline_eq_spec_order (campus dept : List Char)
    (day : Option (List Char)) (cs : List Constraint)
    (data : List Outline) :
    pipeline campus day dept cs data = specPipeline campus day dept cs data := by
  unfold pipeline specPipeline
  have h2 : WS (fu data) := fu_WS data
  rw [fc_eq_filter campus (fu data) h2]
  have hW2 : WS ((fu data).filter (campusPred campus)) := WS_filter _ _ h2
  have hWt : WS (ft ((fu data).filter (campusPred campus)) dept) := by
    rw [ft_eq_filter]; exact WS_filter _ _ hW2
  simp only [exbind]
  rw [fd_eq_dayFilter day _ hW2, fd_eq_dayFilter day _ hWt]
  simp only [exbind]
  congr 1
  rw [ft_eq_filter, ft_eq_filter]
  cases day with
  | none => rfl
  | some d =>
    cases d with
    | nil => rfl
    | cons c cs' =>
      exact filter_swap (dayPred (c :: cs')) (takenPred dept) _

theorem exbind_eq_error {α β : Type} (x : Except Err α) (f : α → Except Err β)
    (e : Err) : exbind x f = .error e ↔
      x = .error e ∨ ∃ a, x = .ok a ∧ f a = .error e := by
  cases x <;> simp [exbind]

theorem pyIndex_error {α : Type} (l : List α) (n : Nat) (e : Err)
    (h : pyIndex l n = .error e) : e = .indexError := by
  unfold pyIndex at h
  cases hx : l.get? n <;> rw [hx] at h <;> simp at h
  exact h.symm

theorem liftVE_error (o : Option Int) (e : Err)
    (h : liftVE o = .error e) : e = .valueError := by
  cases o <;> simp [liftVE] at h
  exact h.symm

theorem liftAE_error (o : Option (List Char)) (e : Err)
    (h : liftAE o = .error e) : e = .attributeError := by
  cases o <;> simp [liftAE] at h
  exact h.symm

theorem time_to_minutes_error_kind (s : List Char) (e : Err)
    (h : time_to_minutes s = .error e) :
    e = .indexError ∨ e = .valueError := by
  unfold time_to_minutes at h
  rcases (exbind_eq_error _ _ _).mp h with h1 | ⟨p0, _, h1⟩
  · exact Or.inl (pyIndex_error _ _ _ h1)
  rcases (exbind_eq_error _ _ _).mp h1 with h2 | ⟨v0, _, h2⟩
  · exact Or.inr (liftVE_error _ _ h2)
  rcases (exbind_eq_error _ _ _).mp h2 with h3 | ⟨p1, _, h3⟩
  · exact Or.inl (pyIndex_error _ _ _ h3)
  rcases (exbind_eq_error _ _ _).mp h3 with h4 | ⟨v1, _, h4⟩
  · exact Or.inr (liftVE_error _ _ h4)
  · exact absurd h4 (by simp)

theorem possibleGo_ne_assert (cs : List Constraint) :
    ∀ l : List Schedule, possibleGo cs l ≠ .error .assertionError := by
  intro l
  induction l with
  | nil => simp [possibleGo]
  | cons s rest ih =>
    cases hst : s.startTime with
    | none => simpa [possibleGo, hst] using ih
    | some a0 =>
      cases a0 with
      | nil => simpa [possibleGo, hst] using ih
      | cons a as =>
        simp only [possibleGo, hst]
        intro hcon
        rcases (exbind_eq_error _ _ _).mp hcon with h1 | ⟨st, _, h1⟩
        · rcases time_to_minutes_error_kind _ _ h1 with h | h <;>
            exact Err.noConfusion h
        rcases (exbind_eq_error _ _ _).mp h1 with h2 | ⟨b, _, h2⟩
        · exact Err.noConfusion (liftAE_error _ _ h2)
        rcases (exbind_eq_error _ _ _).mp h2 with h3 | ⟨en, _, h3⟩
        · rcases time_to_minutes_error_kind _ _ h3 with h | h <;>
            exact Err.noConfusion h
        · by_cases hs : satisfies_constraints cs s.days st en = true
          · rw [if_pos hs] at h3; exact ih h3
          · rw [if_neg hs] at h3; exact Except.noConfusion h3

/-- C10: every offering surviving HasSchedule (fu) has a non-None,
non-empty meeting-pattern list, and consequently the schedule accesses of
the later stages are well-defined on such lists: CampusMatch (fc) returns a
result rather than raising, WeekdayMatch (fd) returns a result on any
sublist of fu's output, and the `assert course.schedule` of the
ConstraintSatisfaction stage's `possible` never fires. -/
theorem c10_fu_schedule_safety (data : List Outline) (campus : List Char)
    (day : Option (List Char)) (cs : List Constraint) :
    (∀ x ∈ fu data, ∃ s t, x.schedule = some (s :: t))
    ∧ (∃ r, fc campus (fu data) = .ok r)
    ∧ (∀ l, l ⊆ fu data → ∃ r, fd day l = .ok r)
    ∧ (∀ x ∈ fu data, possible x cs ≠ .error .assertionError) := by
  refine ⟨fu_WS data, ⟨_, fc_eq_filter campus (fu data) (fu_WS data)⟩,
    ?_, ?_⟩
  · intro l hl
    exact ⟨_, fd_eq_dayFilter day l (fun x hx => fu_WS data x (hl hx))⟩
  · intro x hx
    rcases fu_WS data x hx with ⟨s, t, hs⟩
    have : possible x cs = possibleGo cs (s :: t) := by
      unfold possible; rw [hs]
    rw [this]
    exact possibleGo_ne_assert cs (s :: t)

/-- C10 witness: the safety conjunction instantiated at a concrete list. -/
theorem c10_fu_schedule_safety_witness :
    (∀ x ∈ fu [o120], ∃ s t, x.schedule = some (s :: t))
    ∧ (∃ r, fc (("Burnaby").toList) (fu [o120]) = .ok r)
    ∧ (∀ l, l ⊆ fu [o120] → ∃ r, fd (some (("Mo").toList)) l = .ok r)
    ∧ (∀ x ∈ fu [o120], possible x [] ≠ .error .assertionError) :=
  c10_fu_schedule_safety [o120] (("Burnaby").toList)
    (some (("Mo").toList)) []

theorem possibleGo_ok_true_iff (cs : List Constraint) :
    ∀ l : List Schedule,
      (∀ s ∈ l, ∀ a as, s.startTime = some (a :: as) →
        ∃ b st en, s.endTime = some b ∧ time_to_minutes (a :: as) = .ok st ∧
          time_to_minutes b = .ok en) →
      (possibleGo cs l = .ok true ↔
        ∀ s ∈ l, ∀ a as b st en, s.startTime = some (a :: as) →
          s.endTime = some b → time_to_minutes (a :: as) = .ok st →
          time_to_minutes b = .ok en →
          satisfies_constraints cs s.days st en = true) := by
  intro l
  induction l with
  | nil => intro _; simp [possibleGo]
  | cons s rest ih =>
    intro h
    have hrest : ∀ s' ∈ rest, ∀ a as, s'.startTime = some (a :: as) →
        ∃ b st en, s'.endTime = some b ∧
          time_to_minutes (a :: as) = .ok st ∧ time_to_minutes b = .ok en :=
      fun s' hs' => h s' (List.mem_cons_of_mem _ hs')
    cases hst : s.startTime with
    | none =>
      rw [show possibleGo cs (s :: rest) = possibleGo cs rest from by
        simp [possibleGo, hst]]
      rw [ih hrest]
      constructor
      · intro hall s' hs' a as b st en h1 h2 h3 h4
        rcases List.mem_cons.mp hs' with he | hm
        · subst he; rw [hst] at h1; exact Option.noConfusion h1
        · exact hall s' hm a as b st en h1 h2 h3 h4
      · intro hall s' hs' a as b st en h1 h2 h3 h4
        exact hall s' (List.mem_cons_of_mem _ hs') a as b st en h1 h2 h3 h4
    | some a0 =>
      cases a0 with
      | nil =>
        rw [show possibleGo cs (s :: rest) = possibleGo cs rest from by
          simp [possibleGo, hst]]
        rw [ih hrest]
        constructor
        · intro hall s' hs' a as b st en h1 h2 h3 h4
          rcases List.mem_cons.mp hs' with he | hm
          · subst he; rw [hst] at h1
            injection h1 with h1'
            exact List.noConfusion h1'
          · exact hall s' hm a as b st en h1 h2 h3 h4
        · intro hall s' hs' a as b st en h1 h2 h3 h4
          exact hall s' (List.mem_cons_of_mem _ hs') a as b st en h1 h2 h3 h4
      | cons a as0 =>
        rcases h s (List.mem_cons_self _ _) a as0 hst with ⟨b, st, en, hb, hstt, hen⟩
        rw [show possibleGo cs (s :: rest) =
            (if satisfies_constraints cs s.days st en then possibleGo cs rest
             else .ok false) from by
          simp [possibleGo, hst, t2m, hstt, hb, liftAE, hen, exbind]]
        by_cases hsat : satisfies_constraints cs s.days st en = true
        · rw [if_pos hsat, ih hrest]
          constructor
          · intro hall s' hs' a' as' b' st' en' h1 h2 h3 h4
            rcases List.mem_cons.mp hs' with he | hm
            · subst he
              rw [hst] at h1; injection h1 with h1'
              rw [hb] at h2; injection h2 with h2'
              rw [← h1'] at h3; rw [hstt] at h3; injection h3 with h3'
              rw [← h2'] at h4; rw [hen] at h4; injection h4 with h4'
              rw [← h3', ← h4']
              exact hsat
            · exact hall s' hm a' as' b' st' en' h1 h2 h3 h4
          · intro hall s' hs' a' as' b' st' en' h1 h2 h3 h4
            exact hall s' (List.mem_cons_of_mem _ hs') a' as' b' st' en' h1 h2 h3 h4
        · rw [if_neg hsat]
          constructor
          · intro hx
            injection hx with hx'
            exact Bool.noConfusion hx'
          · intro hall
            exact absurd (hall s (List.mem_cons_self _ _) a as0 b st en
              hst hb hstt hen) hsat

/-- C6: in the ConstraintSatisfaction stage, meeting patterns with no
recorded start time are exempt: provided every timed pattern's times parse,
`possible` accepts an offering iff every timed meeting pattern satisfies
the constraint set, and an offering all of whose patterns lack start times
is always accepted. -/
theorem c6_possible_timed_spec (cs : List Constraint) (course : Outline)
    (l : List Schedule) (h1 : course.schedule = some l) (h2 : l ≠ [])
    (h3 : ∀ s ∈ l, ∀ a as, s.startTime = some (a :: as) →
      ∃ b st en, s.endTime = some b ∧ time_to_minutes (a :: as) = .ok st ∧
        time_to_minutes b = .ok en) :
    (possible course cs = .ok true ↔
      ∀ s ∈ l, ∀ a as b st en, s.startTime = some (a :: as) →
        s.endTime = some b → time_to_minutes (a :: as) = .ok st →
        time_to_minutes b = .ok en →
        satisfies_constraints cs s.days st en = true)
    ∧ ((∀ s ∈ l, s.startTime = none ∨ s.startTime = some []) →
        possible course cs = .ok true) := by
  cases l with
  | nil => exact absurd rfl h2
  | cons s0 t0 =>
    have hp : possible course cs = possibleGo cs (s0 :: t0) := by
      unfold possible; rw [h1]
    constructor
    · rw [hp]; exact possibleGo_ok_true_iff cs (s0 :: t0) h3
    · intro hall
      rw [hp, possibleGo_ok_true_iff cs (s0 :: t0) h3]
      intro s hs a as b st en hstart _ _ _
      rcases hall s hs with hn | hn <;> rw [hn] at hstart
      · exact Option.noConfusion hstart
      · injection hstart with hx
        exact List.noConfusion hx

/-- C6 witness: an offering whose single meeting pattern has no recorded
start time always passes the ConstraintSatisfaction stage. -/
theorem c6_possible_timed_witness : possible o120 [] = .ok true :=
  (c6_possible_timed_spec [] o120 [tuBurnaby] rfl (by simp)
    (fun s hs a as hst => by
      rw [List.mem_singleton] at hs
      subst hs
      exact absurd hst (by simp [tuBurnaby]))).2
    (fun s hs => by
      rw [List.mem_singleton] at hs
      subst hs
      exact Or.inl rfl)
